import Mathlib

/-!
Verification of the Gerrit upload pipeline of `cli/src/commands/gerrit/upload.rs`.

The embedding is shallow: commits are modelled as Merkle-style trees, so a
commit's id literally is a pure function of its content and parent ids
(matching the spec's data-model invariant).  The trailer parsing routine
`parse_description_trailers` lives in `jj_lib`, outside the shown sources, so
every definition and theorem is parameterized by an arbitrary parsing function
`pt : String → List Trailer`.  External collaborators (revset evaluation, the
commit index's `heads`, the git remote list) enter as explicit inputs.
Rust's byte-based `str` operations are modelled on the character level, which
agrees with them on ASCII data.
-/

/-- Author or committer identity plus timestamp (`jj_lib::backend::Signature`,
with the millis/offset pair collapsed to one integer). -/
structure Signature where
  name : String
  email : String
  timestamp : Int
deriving DecidableEq, Repr

/-- A commit id.  Modelled as the Merkle tree of the commit's content: the id
is a pure function of parents, description, author, committer, stable change
identity and tree, as the spec's data-model invariant requires.  A commit and
its id are therefore identified; `Store::get_commit` is the identity. -/
inductive CommitId where
  | node (parents : List CommitId) (description : String)
      (author committer : Signature) (changeId : String) (tree : Nat) : CommitId
deriving Repr

mutual

def CommitId.beq : CommitId → CommitId → Bool
  | .node ps d a c ch t, .node qs d' a' c' ch' t' =>
    CommitId.beqList ps qs && d = d' && a = a' && c = c' && ch = ch' && t = t'

def CommitId.beqList : List CommitId → List CommitId → Bool
  | [], [] => true
  | p :: ps, q :: qs => CommitId.beq p q && CommitId.beqList ps qs
  | _, _ => false

end

mutual

theorem CommitId.beq_iff : ∀ a b : CommitId, CommitId.beq a b = true ↔ a = b
  | .node ps d a c ch t, .node qs d' a' c' ch' t' => by
    simp only [CommitId.beq, Bool.and_eq_true, decide_eq_true_eq, CommitId.node.injEq]
    rw [CommitId.beqList_iff ps qs]
    tauto

theorem CommitId.beqList_iff : ∀ xs ys : List CommitId, CommitId.beqList xs ys = true ↔ xs = ys
  | [], [] => by simp [CommitId.beqList]
  | [], _ :: _ => by simp [CommitId.beqList]
  | _ :: _, [] => by simp [CommitId.beqList]
  | p :: ps, q :: qs => by
    simp only [CommitId.beqList, Bool.and_eq_true, List.cons.injEq]
    rw [CommitId.beq_iff p q, CommitId.beqList_iff ps qs]

end

instance : DecidableEq CommitId := fun a b =>
  decidable_of_iff (CommitId.beq a b = true) (CommitId.beq_iff a b)

/-- `Commit::parents()` (as ids). -/
def CommitId.parents : CommitId → List CommitId
  | .node ps _ _ _ _ _ => ps

/-- `Commit::description()`. -/
def CommitId.description : CommitId → String
  | .node _ d _ _ _ _ => d

/-- `Commit::author()`. -/
def CommitId.author : CommitId → Signature
  | .node _ _ a _ _ _ => a

/-- `Commit::committer()`. -/
def CommitId.committer : CommitId → Signature
  | .node _ _ _ c _ _ => c

/-- `Commit::change_id().hex()`: the stable change identity, kept in hex form. -/
def CommitId.change_id : CommitId → String
  | .node _ _ _ _ ch _ => ch

/-- The commit's content (tree) component. -/
def CommitId.tree : CommitId → Nat
  | .node _ _ _ _ _ t => t

/-- One key/value pair returned by the trailer parser
(`jj_lib::trailer::Trailer`). -/
structure Trailer where
  key : String
  value : String
deriving DecidableEq, Repr

/-- Rust's `str::trim`: strip leading and trailing whitespace.  Modelled on
the character list (ASCII whitespace, which is what the descriptions here
contain). -/
def rust_trim (s : String) : String :=
  ⟨((s.data.dropWhile Char.isWhitespace).reverse.dropWhile Char.isWhitespace).reverse⟩

/-- Rust's `str::starts_with(char)`: the first character is `c`. -/
def rust_starts_with (s : String) (c : Char) : Bool :=
  s.data.head? == some c

/-- The `Change-Id` trailers of a description, given the trailer parser `pt`:
`trailers.iter().filter(|trailer| trailer.key == "Change-Id")`. -/
def change_id_trailers (pt : String → List Trailer) (description : String) : List Trailer :=
  (pt description).filter (fun trailer => trailer.key == "Change-Id")

/-- `IndexMap::insert`: overwrite in place if the key exists, else append. -/
def insertIdx (m : List (CommitId × CommitId)) (k v : CommitId) : List (CommitId × CommitId) :=
  if (m.map Prod.fst).contains k then
    m.map (fun p => if p.1 = k then (k, v) else p)
  else
    m ++ [(k, v)]

/-- `IndexMap::get` on the association-list model. -/
def lookupId : List (CommitId × CommitId) → CommitId → Option CommitId
  | [], _ => none
  | (k, v) :: rest, c => if k = c then some v else lookupId rest c

/-- The in-flight state of `MutRepo::rewrite_commit(&original_commit)`:
a builder carrying the pending commit's fields.  Rewriting starts from the
original commit's data but resets the committer timestamp to the current
time, which the upload code then undoes via `set_committer`. -/
structure CommitBuilder where
  parents : List CommitId
  description : String
  author : Signature
  committer : Signature
  changeId : String
  tree : Nat

/-- `MutRepo::rewrite_commit`: a builder seeded from the original commit,
with the committer timestamp set to the rewrite time `now`. -/
def rewrite_commit (now : Int) (orig : CommitId) : CommitBuilder :=
  { parents := orig.parents, description := orig.description,
    author := orig.author,
    committer := { name := orig.committer.name, email := orig.committer.email,
                   timestamp := now },
    changeId := orig.change_id, tree := orig.tree }

/-- `CommitBuilder::set_description`. -/
def CommitBuilder.set_description (b : CommitBuilder) (d : String) : CommitBuilder :=
  { b with description := d }

/-- `CommitBuilder::set_parents`. -/
def CommitBuilder.set_parents (b : CommitBuilder) (ps : List CommitId) : CommitBuilder :=
  { b with parents := ps }

/-- `CommitBuilder::set_committer`. -/
def CommitBuilder.set_committer (b : CommitBuilder) (s : Signature) : CommitBuilder :=
  { b with committer := s }

/-- `CommitBuilder::set_author`. -/
def CommitBuilder.set_author (b : CommitBuilder) (s : Signature) : CommitBuilder :=
  { b with author := s }

/-- `CommitBuilder::write`: produce the new commit; its id is the content
tree itself (content addressing). -/
def CommitBuilder.write (b : CommitBuilder) : CommitId :=
  .node b.parents b.description b.author b.committer b.changeId b.tree

/-- Modelled from the spec: `Commit::is_discardable` lives in `jj_lib`, not
under the shown sources.  The spec and glossary define a discardable commit
as "a commit with no description and no content change relative to its
parent". -/
def is_discardable (c : CommitId) : Bool :=
  c.description == "" && c.parents.map CommitId.tree == [c.tree]

/-- `let gerrit_change_id = format!("I6a6a6964{}", original_commit.change_id().hex())`. -/
def gerrit_change_id (c : CommitId) : String :=
  "I6a6a6964" ++ c.change_id

/-- The `new_description` built for a commit without a `Change-Id` trailer:
`format!("{}{}Change-Id: {}\n", description.trim(), if trailers.is_empty() { "\n\n" } else { "\n" }, gerrit_change_id)`. -/
def new_description (pt : String → List Trailer) (c : CommitId) : String :=
  rust_trim c.description
    ++ (if (pt c.description).isEmpty then "\n\n" else "\n")
    ++ "Change-Id: " ++ gerrit_change_id c ++ "\n"

/-- The `new_parents` computation: look each original parent up in
`old_to_new`, falling back to the original parent when absent. -/
def new_parents (old_to_new : List (CommitId × CommitId)) (c : CommitId) : List CommitId :=
  c.parents.map (fun p => (lookupId old_to_new p).getD p)

/-- The `new_commit` built and written for a commit without a `Change-Id`
trailer: `rewrite_commit` followed by the four setters and `write`. -/
def new_commit (pt : String → List Trailer) (now : Int)
    (old_to_new : List (CommitId × CommitId)) (c : CommitId) : CommitId :=
  (((((rewrite_commit now c).set_description (new_description pt c)).set_parents
      (new_parents old_to_new c)).set_committer c.committer).set_author c.author).write

/-- The mutable state threaded through the stamping loop: the
`old_to_new : IndexMap<CommitId, Commit>` mapping, the warnings printed so
far (by the commit they name), and the commits written into the transaction
scope so far. -/
structure StampState where
  oldToNew : List (CommitId × CommitId)
  warnings : List CommitId
  written : List CommitId
deriving DecidableEq, Repr

/-- One iteration of the stamping loop of `cmd_upload` for the commit `c`:
error (with the offending commit) on multiple `Change-Id` trailers; with a
single trailer, warn when malformed and map the commit to itself; with no
trailer, build and write the stamped commit. -/
def stampOne (pt : String → List Trailer) (now : Int) (st : StampState)
    (c : CommitId) : Except CommitId StampState :=
  let cids := change_id_trailers pt c.description
  if cids.length > 1 then
    .error c
  else
    match cids.head? with
    | some trailer =>
      let st' :=
        if trailer.value.length != 41 || !(rust_starts_with trailer.value 'I') then
          { st with warnings := st.warnings ++ [c] }
        else st
      .ok { st' with oldToNew := insertIdx st'.oldToNew c c }
    | none =>
      let nc := new_commit pt now st.oldToNew c
      .ok { oldToNew := insertIdx st.oldToNew c nc,
            warnings := st.warnings,
            written := st.written ++ [nc] }

/-- The stamping loop over the chain (already in parent-before-child order,
i.e. `to_upload` reversed).  Returns the final state and, if some commit had
multiple `Change-Id` trailers, that commit. -/
def stampChain (pt : String → List Trailer) (now : Int) :
    List CommitId → StampState → StampState × Option CommitId
  | [], st => (st, none)
  | c :: rest, st =>
    match stampOne pt now st c with
    | .error e => (st, some e)
    | .ok st' => stampChain pt now rest st'

/-- `calculate_push_remote`: the remote-resolution priority chain.  The
store/config surface is flattened into the list of known remote names, the
recorded default push remote, and the `gerrit.default-remote` setting. -/
def calculate_push_remote (remotes : List String)
    (remote_default_name : Option String)
    (gerrit_default_remote : Option String)
    (remote : Option String) : Except String String :=
  match remote with
  | some remote =>
    if remotes.contains remote then .ok remote
    else .error ("The remote '" ++ remote ++ "' (specified via `--remote`) does not exist")
  | none =>
    match gerrit_default_remote with
    | some remote =>
      if remotes.contains remote then .ok remote
      else .error ("The remote '" ++ remote ++ "' (configured via `gerrit.default-remote`) does not exist")
    | none =>
      match remote_default_name with
      | some remote => .ok remote
      | none =>
        if remotes.contains "gerrit" then .ok "gerrit"
        else .error "No remote specified, and no 'gerrit' remote was found"

/-- `calculate_push_ref`: the target-branch priority chain. -/
def calculate_push_ref (gerrit_default_remote_branch : Option String)
    (remote_branch : Option String) : Except String String :=
  match remote_branch with
  | some remote_branch => .ok remote_branch
  | none =>
    match gerrit_default_remote_branch with
    | some branch => .ok branch
    | none =>
      .error ("No target branch specified via --remote-branch, and no 'gerrit.default-remote-branch' was found")

/-- One `git::push_updates` call of the push loop: a single `GitRefUpdate`
plus the remote it is sent to. -/
structure PushRequest where
  remote : String
  qualified_name : String
  expected_current_target : Option CommitId
  new_target : Option CommitId
deriving DecidableEq, Repr

/-- The command-line arguments of `jj gerrit upload` that the pipeline
consumes (the revset itself enters as its evaluated commit list). -/
structure UploadArgs where
  remote : Option String
  remote_branch : Option String
  dry_run : Bool

/-- The ways `cmd_upload` aborts with an error (plus the impossible
`unwrap` panic of the push loop, modelled as its own outcome). -/
inductive UploadError where
  | root_commit
  | immutable_commit
  | discardable (c : CommitId)
  | multiple_change_ids (c : CommitId)
  | remote_resolution (msg : String)
  | branch_resolution (msg : String)
  | missing_head (c : CommitId)
deriving DecidableEq, Repr

instance {ε α : Type} [DecidableEq ε] [DecidableEq α] : DecidableEq (Except ε α) :=
  fun a b =>
  match a, b with
  | .error e, .error e' => decidable_of_iff (e = e') (by simp)
  | .ok x, .ok y => decidable_of_iff (x = y) (by simp)
  | .error _, .ok _ => isFalse (by simp)
  | .ok _, .error _ => isFalse (by simp)

/-- Everything observable about one run of `cmd_upload`: the result, the
"No revisions to upload." notice, the per-head progress lines (each naming
the original head commit whose summary is printed), the push requests
issued, the commits written into the transaction scope, the warnings, and
whether a transaction was started / finalized. -/
structure UploadOutcome where
  result : Except UploadError Unit
  no_revisions : Bool
  progress : List CommitId
  pushes : List PushRequest
  written : List CommitId
  warnings : List CommitId
  tx_started : Bool
  tx_committed : Bool
deriving DecidableEq, Repr

/-- The per-head loop at the end of `cmd_upload`: print one progress line
per head (always, naming the original commit), then — unless in dry-run —
look the head up in `old_to_new` and issue one `push_updates` call with a
single ref update and no expected current target.  A failed lookup is the
`unwrap` panic; it stops the loop. -/
def pushPhase (dry_run : Bool) (remote remote_ref : String)
    (old_to_new : List (CommitId × CommitId)) :
    List CommitId → List CommitId × List PushRequest × Option CommitId
  | [] => ([], [], none)
  | head :: rest =>
    if dry_run then
      let r := pushPhase dry_run remote remote_ref old_to_new rest
      (head :: r.1, r.2.1, r.2.2)
    else
      match lookupId old_to_new head with
      | none => ([head], [], some head)
      | some nc =>
        let r := pushPhase dry_run remote remote_ref old_to_new rest
        (head :: r.1,
         { remote := remote, qualified_name := remote_ref,
           expected_current_target := none,
           new_target := some nc } :: r.2.1,
         r.2.2)

/-- The read-only environment of one `cmd_upload` run: the (external)
trailer parser, the git remote surface, the configuration, the immutability
predicate backing `check_rewritable`, the root commit id, and the wall-clock
time a transaction would stamp on rewritten commits. -/
structure Env where
  pt : String → List Trailer
  remotes : List String
  default_push_remote : Option String
  gerrit_default_remote : Option String
  gerrit_default_remote_branch : Option String
  immutable : CommitId → Bool
  root_commit_id : CommitId
  now : Int

/-- `cmd_upload`, as a pure function from its environment, arguments and the
externally evaluated commit sets (the selected `revisions`, the mutable
ancestor closure `to_upload` in the revset's descendant-first order, and the
index's `old_heads`) to the observable outcome.  The branch structure and
the order of the checks mirror the source. -/
def cmd_upload (env : Env) (args : UploadArgs)
    (revisions to_upload old_heads : List CommitId) : UploadOutcome :=
  if revisions.isEmpty then
    { result := .ok (), no_revisions := true, progress := [], pushes := [],
      written := [], warnings := [], tx_started := false, tx_committed := false }
  else if revisions.contains env.root_commit_id then
    { result := .error .root_commit, no_revisions := false, progress := [],
      pushes := [], written := [], warnings := [], tx_started := false,
      tx_committed := false }
  else if revisions.any env.immutable then
    { result := .error .immutable_commit, no_revisions := false, progress := [],
      pushes := [], written := [], warnings := [], tx_started := false,
      tx_committed := false }
  else
    match calculate_push_remote env.remotes env.default_push_remote
        env.gerrit_default_remote args.remote with
    | .error msg =>
      { result := .error (.remote_resolution msg), no_revisions := false,
        progress := [], pushes := [], written := [], warnings := [],
        tx_started := true, tx_committed := false }
    | .ok remote =>
      match calculate_push_ref env.gerrit_default_remote_branch args.remote_branch with
      | .error msg =>
        { result := .error (.branch_resolution msg), no_revisions := false,
          progress := [], pushes := [], written := [], warnings := [],
          tx_started := true, tx_committed := false }
      | .ok remote_branch =>
        match to_upload.find? is_discardable with
        | some c =>
          { result := .error (.discardable c), no_revisions := false,
            progress := [], pushes := [], written := [], warnings := [],
            tx_started := true, tx_committed := false }
        | none =>
          let r := stampChain env.pt env.now to_upload.reverse ⟨[], [], []⟩
          match r.2 with
          | some c =>
            { result := .error (.multiple_change_ids c), no_revisions := false,
              progress := [], pushes := [], written := r.1.written,
              warnings := r.1.warnings, tx_started := true, tx_committed := false }
          | none =>
            let remote_ref := "refs/for/" ++ remote_branch
            let p := pushPhase args.dry_run remote remote_ref r.1.oldToNew old_heads
            { result :=
                match p.2.2 with
                | some c => .error (.missing_head c)
                | none => .ok (),
              no_revisions := false, progress := p.1, pushes := p.2.1,
              written := r.1.written, warnings := r.1.warnings,
              tx_started := true, tx_committed := false }

/-! ### Concrete fixtures used by the closed instantiations below -/

def sigW : Signature := ⟨"Alice", "alice@example.com", 1000⟩

/-- The virtual root commit of the fixtures. -/
def cRoot : CommitId := .node [] "" sigW sigW "00" 0

/-- A commit without a `Change-Id` trailer. -/
def cA : CommitId := .node [] "feat a" sigW sigW "aa" 1

/-- The stamped form of `cA` under the trivial parser at any rewrite time. -/
def cA2 : CommitId := .node [] "feat a\n\nChange-Id: I6a6a6964aa\n" sigW sigW "aa" 1

/-- A child of `cA`, also without a `Change-Id` trailer. -/
def cB : CommitId := .node [cA] "feat b" sigW sigW "bb" 2

/-- A commit whose description carries two `Change-Id` trailers under `ptBad`. -/
def cBad : CommitId := .node [] "bad" sigW sigW "dd" 3

/-- A commit whose description carries surrounding whitespace (a leading
space and a trailing newline, the shape jj normally stores) and no
`Change-Id` trailer. -/
def cD : CommitId := .node [] " fix bug\n" sigW sigW "ee" 4

/-- The commit the stamping step actually produces for `cD` under the
trivial parser: the description is trimmed before the trailer is appended. -/
def cD2 : CommitId := .node [] "fix bug\n\nChange-Id: I6a6a6964ee\n" sigW sigW "ee" 4

/-- A trailer parser finding no trailers at all. -/
def ptW : String → List Trailer := fun _ => []

/-- A trailer parser producing two `Change-Id` trailers for `cBad`. -/
def ptBad : String → List Trailer := fun d =>
  if d = "bad" then [⟨"Change-Id", "Iaaa"⟩, ⟨"Change-Id", "Ibbb"⟩] else []

/-- A trailer parser producing one malformed `Change-Id` trailer. -/
def ptShort : String → List Trailer := fun _ => [⟨"Change-Id", "short"⟩]

/-- A fixture environment with one remote "origin" and nothing immutable. -/
def envW : Env :=
  { pt := ptW, remotes := ["origin"], default_push_remote := none,
    gerrit_default_remote := none, gerrit_default_remote_branch := none,
    immutable := fun _ => false, root_commit_id := cRoot, now := 0 }

/-- `envW` with the two-trailer parser. -/
def envBad : Env := { envW with pt := ptBad }

/-- Explicit remote and branch, no dry-run. -/
def argsW : UploadArgs := { remote := some "origin", remote_branch := some "main", dry_run := false }

/-- `argsW` in dry-run mode. -/
def argsDry : UploadArgs := { argsW with dry_run := true }

/-- The stamping state after stamping `cA` alone from the empty state. -/
def stA : StampState := ⟨[(cA, cA2)], [], [cA2]⟩

/-! ### Helper lemmas -/

theorem new_commit_description (pt : String → List Trailer) (now : Int)
    (m : List (CommitId × CommitId)) (c : CommitId) :
    (new_commit pt now m c).description = new_description pt c := rfl

theorem new_commit_parents_eq (pt : String → List Trailer) (now : Int)
    (m : List (CommitId × CommitId)) (c : CommitId) :
    (new_commit pt now m c).parents = new_parents m c := rfl

theorem new_commit_author (pt : String → List Trailer) (now : Int)
    (m : List (CommitId × CommitId)) (c : CommitId) :
    (new_commit pt now m c).author = c.author := rfl

theorem new_commit_committer (pt : String → List Trailer) (now : Int)
    (m : List (CommitId × CommitId)) (c : CommitId) :
    (new_commit pt now m c).committer = c.committer := rfl

theorem new_commit_now_irrel (pt : String → List Trailer) (t₁ t₂ : Int)
    (m : List (CommitId × CommitId)) (c : CommitId) :
    new_commit pt t₁ m c = new_commit pt t₂ m c := rfl

theorem stampOne_fresh (pt : String → List Trailer) (now : Int) (st : StampState)
    (c : CommitId) (hno : change_id_trailers pt c.description = []) :
    stampOne pt now st c = .ok
      { oldToNew := insertIdx st.oldToNew c (new_commit pt now st.oldToNew c),
        warnings := st.warnings,
        written := st.written ++ [new_commit pt now st.oldToNew c] } := by
  simp [stampOne, hno]

theorem stampOne_tracked (pt : String → List Trailer) (now : Int) (st : StampState)
    (c : CommitId) (trailer : Trailer)
    (hone : change_id_trailers pt c.description = [trailer]) :
    stampOne pt now st c = .ok
      { oldToNew := insertIdx st.oldToNew c c,
        warnings :=
          if trailer.value.length != 41 || !(rust_starts_with trailer.value 'I') then
            st.warnings ++ [c]
          else st.warnings,
        written := st.written } := by
  simp only [stampOne, hone, List.head?_cons]
  rw [if_neg (by simp : ¬ ([trailer] : List Trailer).length > 1)]
  split <;> rfl

theorem stampOne_multi (pt : String → List Trailer) (now : Int) (st : StampState)
    (c : CommitId) (hmulti : 1 < (change_id_trailers pt c.description).length) :
    stampOne pt now st c = .error c := by
  simp [stampOne, hmulti]

theorem insertIdx_not_mem (m : List (CommitId × CommitId)) (k v : CommitId)
    (h : k ∉ m.map Prod.fst) : insertIdx m k v = m ++ [(k, v)] := by
  simp [insertIdx, h]

theorem mem_insertIdx (m : List (CommitId × CommitId)) (k v : CommitId)
    (p : CommitId × CommitId) (h : p ∈ insertIdx m k v) : p ∈ m ∨ p = (k, v) := by
  unfold insertIdx at h
  split at h
  · rcases List.mem_map.mp h with ⟨q, hq, hpq⟩
    by_cases hqk : q.1 = k
    · rw [if_pos hqk] at hpq
      exact Or.inr hpq.symm
    · rw [if_neg hqk] at hpq
      exact Or.inl (hpq ▸ hq)
  · rcases List.mem_append.mp h with hm | hm
    · exact Or.inl hm
    · exact Or.inr (List.mem_singleton.mp hm)

theorem lookupId_isSome_iff (m : List (CommitId × CommitId)) (c : CommitId) :
    (lookupId m c).isSome = true ↔ c ∈ m.map Prod.fst := by
  induction m with
  | nil => simp [lookupId]
  | cons p rest ih =>
    obtain ⟨k, v⟩ := p
    by_cases hk : k = c
    · simp [lookupId, hk]
    · simp [lookupId, hk, ih, Ne.symm hk]

theorem lookupId_singleton (A A' p : CommitId) :
    lookupId [(A, A')] p = if A = p then some A' else none := rfl

theorem stampOne_ok_spec (pt : String → List Trailer) (now : Int) (st : StampState)
    (c : CommitId) (st' : StampState) (h : stampOne pt now st c = .ok st') :
    ∃ v, st'.oldToNew = insertIdx st.oldToNew c v ∧
      (v = c ∨ v ∈ st'.written) ∧
      ∃ w, st'.written = st.written ++ w := by
  simp only [stampOne] at h
  split at h
  · exact absurd h (by simp)
  · split at h
    · split at h <;>
      · injection h with h'
        subst h'
        exact ⟨c, rfl, Or.inl rfl, [], by simp⟩
    · injection h with h'
      subst h'
      exact ⟨new_commit pt now st.oldToNew c, rfl, Or.inr (by simp), _, rfl⟩

theorem stampChain_values (pt : String → List Trailer) (now : Int) :
    ∀ (chain : List CommitId) (st₀ : StampState),
      (∀ p ∈ st₀.oldToNew, p.2 = p.1 ∨ p.2 ∈ st₀.written) →
      ∀ p ∈ (stampChain pt now chain st₀).1.oldToNew,
        p.2 = p.1 ∨ p.2 ∈ (stampChain pt now chain st₀).1.written := by
  intro chain
  induction chain with
  | nil => intro st₀ h; simpa [stampChain] using h
  | cons c rest ih =>
    intro st₀ h
    simp only [stampChain]
    cases hs : stampOne pt now st₀ c with
    | error e => simpa using h
    | ok st₁ =>
      apply ih st₁
      intro p hp
      obtain ⟨v, hins, hv, w, hw⟩ := stampOne_ok_spec pt now st₀ c st₁ hs
      rcases mem_insertIdx _ _ _ p (hins ▸ hp) with hm | hpv
      · rcases h p hm with h1 | h2
        · exact Or.inl h1
        · exact Or.inr (hw ▸ List.mem_append_left w h2)
      · subst hpv
        rcases hv with rfl | hvw
        · exact Or.inl rfl
        · exact Or.inr hvw

theorem stampChain_keys (pt : String → List Trailer) (now : Int) :
    ∀ (chain : List CommitId) (st₀ st : StampState),
      chain.Nodup →
      (∀ c ∈ chain, c ∉ st₀.oldToNew.map Prod.fst) →
      stampChain pt now chain st₀ = (st, none) →
      st.oldToNew.map Prod.fst = st₀.oldToNew.map Prod.fst ++ chain := by
  intro chain
  induction chain with
  | nil =>
    intro st₀ st _ _ h
    have h1 : st₀ = st := congrArg Prod.fst h
    simp [← h1]
  | cons c rest ih =>
    intro st₀ st hnd hfresh h
    simp only [stampChain] at h
    cases hs : stampOne pt now st₀ c with
    | error e => rw [hs] at h; simp at h
    | ok st₁ =>
      rw [hs] at h
      obtain ⟨v, hins, -, -⟩ := stampOne_ok_spec pt now st₀ c st₁ hs
      have hcfresh : c ∉ st₀.oldToNew.map Prod.fst := hfresh c (by simp)
      have hkeys₁ : st₁.oldToNew.map Prod.fst = st₀.oldToNew.map Prod.fst ++ [c] := by
        rw [hins, insertIdx_not_mem _ _ _ hcfresh, List.map_append]
        rfl
      have hrest := ih st₁ st (List.Nodup.of_cons hnd)
        (by
          intro c' hc'
          rw [hkeys₁]
          simp only [List.mem_append, List.mem_singleton]
          rintro (hmem | rfl)
          · exact hfresh c' (by simp [hc']) hmem
          · exact (List.nodup_cons.mp hnd).1 hc')
        h
      rw [hrest, hkeys₁, List.append_assoc]
      rfl

theorem pushPhase_dry (remote remote_ref : String) (m : List (CommitId × CommitId)) :
    ∀ heads : List CommitId, pushPhase true remote remote_ref m heads = (heads, [], none) := by
  intro heads
  induction heads with
  | nil => rfl
  | cons hd rest ih => simp [pushPhase, ih]

theorem pushPhase_found (remote remote_ref : String) (m : List (CommitId × CommitId)) :
    ∀ heads : List CommitId, (∀ h ∈ heads, (lookupId m h).isSome = true) →
      pushPhase false remote remote_ref m heads =
        (heads,
         heads.map (fun h =>
           { remote := remote, qualified_name := remote_ref,
             expected_current_target := none, new_target := lookupId m h }),
         none) := by
  intro heads
  induction heads with
  | nil => intro _; rfl
  | cons hd rest ih =>
    intro hall
    obtain ⟨nc, hnc⟩ := Option.isSome_iff_exists.mp (hall hd (by simp))
    have hrest := ih (fun h hh => hall h (by simp [hh]))
    simp [pushPhase, hnc, hrest]

theorem mem_parents_ne (A B : CommitId) (h : A ∈ B.parents) : A ≠ B := by
  intro heq
  subst heq
  cases A with
  | node ps d a c ch t =>
    have hs := List.sizeOf_lt_of_mem (show CommitId.node ps d a c ch t ∈ ps by
      simpa [CommitId.parents] using h)
    simp only [CommitId.node.sizeOf_spec] at hs
    omega

theorem dropWhile_head_not (p : Char → Bool) :
    ∀ (l : List Char) (c : Char) (cs : List Char), l.dropWhile p = c :: cs → p c = false := by
  intro l
  induction l with
  | nil => intro c cs h; simp [List.dropWhile] at h
  | cons x xs ih =>
    intro c cs h
    rw [List.dropWhile_cons] at h
    split at h
    · exact ih c cs h
    · rename_i hx
      cases h
      simpa using hx

theorem rev_trim_decomp (p : Char → Bool) (t : List Char) :
    (t.reverse.dropWhile p).reverse ++ (t.reverse.takeWhile p).reverse = t := by
  rw [← List.reverse_append, List.takeWhile_append_dropWhile, List.reverse_reverse]

theorem trim_list_append_ne (l s : List Char)
    (hs : ∃ c ∈ s, c.isWhitespace = false) :
    ((l.dropWhile Char.isWhitespace).reverse.dropWhile Char.isWhitespace).reverse ++ s ≠ l := by
  intro heq
  obtain ⟨c, hcs, hcw⟩ := hs
  set t := l.dropWhile Char.isWhitespace with ht
  set tr := (t.reverse.dropWhile Char.isWhitespace).reverse with htr0
  set w2 := (t.reverse.takeWhile Char.isWhitespace).reverse with hw20
  have hsplit : l.takeWhile Char.isWhitespace ++ t = l :=
    List.takeWhile_append_dropWhile Char.isWhitespace l
  have hdecomp : tr ++ w2 = t := rev_trim_decomp Char.isWhitespace t
  have hw2 : ∀ x ∈ w2, x.isWhitespace = true := by
    intro x hx
    exact List.mem_takeWhile_imp (List.mem_reverse.mp (hw20 ▸ hx))
  rcases htw : l.takeWhile Char.isWhitespace with _ | ⟨w, wrest⟩
  · -- no leading whitespace: cancel the trimmed prefix, the tail is whitespace
    have hlt : t = l := by rw [← hsplit, htw, List.nil_append]
    have hcancel : tr ++ s = tr ++ w2 := by rw [heq, hdecomp, hlt]
    have hsw2 : s = w2 := List.append_cancel_left hcancel
    exact absurd (hw2 c (hsw2 ▸ hcs)) (by simp [hcw])
  · have hwws : w.isWhitespace = true :=
      List.mem_takeWhile_imp (htw ▸ List.mem_cons_self w wrest)
    have hl : l = w :: (wrest ++ t) := by
      rw [← hsplit, htw, List.cons_append]
    rcases htr2 : tr with _ | ⟨c', rest'⟩
    · -- everything trimmed away: l is all whitespace, yet s has a non-ws char
      rw [htr2, List.nil_append] at heq
      have hcl : c ∈ l.takeWhile Char.isWhitespace ++ t := by rw [hsplit, ← heq]; exact hcs
      rcases List.mem_append.mp hcl with hc1 | hc2
      · exact absurd (List.mem_takeWhile_imp hc1) (by simp [hcw])
      · have hc2w : c ∈ w2 := by
          have : t = w2 := by rw [← hdecomp, htr2, List.nil_append]
          exact this ▸ hc2
        exact absurd (hw2 c hc2w) (by simp [hcw])
    · -- the trimmed text starts with a non-whitespace char, but l starts with w
      have hl2 : c' :: (rest' ++ s) = l := by
        rw [← heq, htr2, List.cons_append]
      have hinj : c' = w ∧ rest' ++ s = wrest ++ t := by
        have := hl2.trans hl
        exact ⟨(List.cons.injEq _ _ _ _ ▸ this).1, (List.cons.injEq _ _ _ _ ▸ this).2⟩
      have htt : t = c' :: (rest' ++ w2) := by
        rw [← hdecomp, htr2, List.cons_append]
      have hnotws : Char.isWhitespace c' = false :=
        dropWhile_head_not Char.isWhitespace l c' (rest' ++ w2) (ht.symm.trans htt)
      rw [hinj.1, hwws] at hnotws
      exact absurd hnotws (by simp)

theorem rust_trim_append_ne (d s : String)
    (hs : ∃ c ∈ s.data, c.isWhitespace = false) :
    rust_trim d ++ s ≠ d := by
  intro heq
  have hdata : (rust_trim d).data ++ s.data = d.data := by
    rw [← String.data_append, heq]
  exact trim_list_append_ne d.data s.data hs hdata

theorem new_description_ne (pt : String → List Trailer) (c : CommitId) :
    new_description pt c ≠ c.description := by
  unfold new_description
  simp only [String.append_assoc]
  apply rust_trim_append_ne
  refine ⟨'C', ?_, by decide⟩
  simp only [String.data_append, List.mem_append]
  right; left
  decide

theorem new_commit_ne (pt : String → List Trailer) (now : Int)
    (m : List (CommitId × CommitId)) (c : CommitId) : new_commit pt now m c ≠ c := by
  intro h
  exact new_description_ne pt c (by rw [← new_commit_description pt now m c, h])

theorem stampOne_now_irrel (pt : String → List Trailer) (t₁ t₂ : Int)
    (st : StampState) (c : CommitId) : stampOne pt t₁ st c = stampOne pt t₂ st c := by
  simp only [stampOne, new_commit_now_irrel pt t₁ t₂]

theorem stampChain_now_irrel (pt : String → List Trailer) (t₁ t₂ : Int) :
    ∀ (chain : List CommitId) (st : StampState),
      stampChain pt t₁ chain st = stampChain pt t₂ chain st := by
  intro chain
  induction chain with
  | nil => intro st; rfl
  | cons c rest ih =>
    intro st
    simp only [stampChain, stampOne_now_irrel pt t₁ t₂ st c]
    cases stampOne pt t₂ st c with
    | error e => rfl
    | ok st' => exact ih st'

theorem insertIdx_nil (k v : CommitId) : insertIdx [] k v = [(k, v)] := rfl

theorem stampOne_ok_of_not_multi (pt : String → List Trailer) (now : Int)
    (st : StampState) (c : CommitId)
    (h : ¬ 1 < (change_id_trailers pt c.description).length) :
    ∃ st', stampOne pt now st c = .ok st' := by
  rcases hc : change_id_trailers pt c.description with _ | ⟨t, rest⟩
  · exact ⟨_, stampOne_fresh pt now st c hc⟩
  · rcases rest with _ | ⟨t2, rest2⟩
    · exact ⟨_, stampOne_tracked pt now st c t hc⟩
    · rw [hc] at h
      simp at h

theorem stampChain_multi_err (pt : String → List Trailer) (now : Int) :
    ∀ (chain : List CommitId) (st₀ : StampState) (c : CommitId), c ∈ chain →
      1 < (change_id_trailers pt c.description).length →
      ∃ c', c' ∈ chain ∧ 1 < (change_id_trailers pt c'.description).length ∧
        (stampChain pt now chain st₀).2 = some c' := by
  intro chain
  induction chain with
  | nil => intro st₀ c hc; simp at hc
  | cons d rest ih =>
    intro st₀ c hc hm
    by_cases hd : 1 < (change_id_trailers pt d.description).length
    · refine ⟨d, by simp, hd, ?_⟩
      simp only [stampChain, stampOne_multi pt now st₀ d hd]
    · have hcr : c ∈ rest := by
        rcases List.mem_cons.mp hc with rfl | h
        · exact absurd hm hd
        · exact h
      obtain ⟨st₁, hok⟩ := stampOne_ok_of_not_multi pt now st₀ d hd
      obtain ⟨c', h1, h2, h3⟩ := ih st₁ c hcr hm
      refine ⟨c', by simp [h1], h2, ?_⟩
      simp only [stampChain, hok]
      exact h3


/-- Claim C1, as frozen, is false of the code: the source trims the
description before appending the trailer, so for a commit whose description
carries surrounding whitespace (here `cD`, with a leading space and the
trailing newline jj normally stores) and no `Change-Id` trailer, the stamped
description is not the original description followed by a blank line and the
trailer line — the original description is not even a prefix of it. -/
theorem gerrit_upload_stamps_fresh_commit_counterexample :
    change_id_trailers ptW cD.description = [] ∧
    (ptW cD.description).isEmpty = true ∧
    stampOne ptW 0 ⟨[], [], []⟩ cD = .ok ⟨[(cD, cD2)], [], [cD2]⟩ ∧
    cD2.description ≠
      cD.description ++ "\n\n" ++ ("Change-Id: " ++ ("I6a6a6964" ++ cD.change_id) ++ "\n") ∧
    cD.description.data.isPrefixOf cD2.description.data = false :=
  ⟨by decide, by decide, by decide, by decide, by decide⟩

/-- Claim C1 (amended: the appended trailer follows the description with its
leading and trailing whitespace trimmed, as the code's `description.trim()`
does): stamping a commit whose description has no `Change-Id` trailer
produces exactly one new commit; its description is the trimmed original
description, the separator (a blank line when the description had no prior
trailers, a single newline otherwise) and the trailer line
`Change-Id: I6a6a6964<hex of the stable change identity>` terminated by a
newline; its author and committer signatures equal the original's verbatim. -/
theorem gerrit_upload_stamps_fresh_commit_trimmed (pt : String → List Trailer) (now : Int)
    (st : StampState) (c : CommitId)
    (hno : change_id_trailers pt c.description = []) :
    stampOne pt now st c = .ok
      { oldToNew := insertIdx st.oldToNew c (new_commit pt now st.oldToNew c),
        warnings := st.warnings,
        written := st.written ++ [new_commit pt now st.oldToNew c] } ∧
    (new_commit pt now st.oldToNew c).description =
      rust_trim c.description ++ (if (pt c.description).isEmpty then "\n\n" else "\n")
        ++ ("Change-Id: " ++ ("I6a6a6964" ++ c.change_id) ++ "\n") ∧
    (new_commit pt now st.oldToNew c).author = c.author ∧
    (new_commit pt now st.oldToNew c).committer = c.committer := by
  refine ⟨stampOne_fresh pt now st c hno, ?_, rfl, rfl⟩
  rw [new_commit_description]
  unfold new_description gerrit_change_id
  simp [String.append_assoc]

/-- Closed instantiation of amended C1 at the fixture commit `cD`, whose
description has surrounding whitespace (the case the frozen claim missed). -/
theorem gerrit_upload_stamps_fresh_commit_trimmed_witness :
    change_id_trailers ptW cD.description = [] ∧
    (stampOne ptW 0 ⟨[], [], []⟩ cD = .ok
      { oldToNew := insertIdx [] cD (new_commit ptW 0 [] cD),
        warnings := [],
        written := [] ++ [new_commit ptW 0 [] cD] } ∧
    (new_commit ptW 0 [] cD).description =
      rust_trim cD.description ++ (if (ptW cD.description).isEmpty then "\n\n" else "\n")
        ++ ("Change-Id: " ++ ("I6a6a6964" ++ cD.change_id) ++ "\n") ∧
    (new_commit ptW 0 [] cD).author = cD.author ∧
    (new_commit ptW 0 [] cD).committer = cD.committer) :=
  ⟨by decide,
    gerrit_upload_stamps_fresh_commit_trimmed ptW 0 ⟨[], [], []⟩ cD (by decide)⟩

/-- Claim C3: on a selection with no existing `Change-Id` trailers, the
stamping loop gives identical results no matter the rewrite time: the
derived identifier depends only on the stable change identity, and the
author/committer timestamps are copied from the originals, so re-running the
stamping step on an unchanged selection yields byte-identical rewritten
descriptions and identical rewritten commit ids. -/
theorem gerrit_upload_stamping_idempotent (pt : String → List Trailer)
    (t₁ t₂ : Int) (chain : List CommitId) (st : StampState)
    (hfresh : ∀ c ∈ chain, change_id_trailers pt c.description = []) :
    stampChain pt t₁ chain st = stampChain pt t₂ chain st ∧
    (stampChain pt t₁ chain st).1.written.map CommitId.description =
      (stampChain pt t₂ chain st).1.written.map CommitId.description :=
  ⟨stampChain_now_irrel pt t₁ t₂ chain st,
   by rw [stampChain_now_irrel pt t₁ t₂ chain st]⟩

/-- Closed instantiation of C3 at the fixture chain `[cA]` and two distinct
rewrite times. -/
theorem gerrit_upload_stamping_idempotent_witness :
    (∀ c ∈ [cA], change_id_trailers ptW c.description = []) ∧
    (stampChain ptW 3 [cA] ⟨[], [], []⟩ = stampChain ptW 7 [cA] ⟨[], [], []⟩ ∧
     (stampChain ptW 3 [cA] ⟨[], [], []⟩).1.written.map CommitId.description =
       (stampChain ptW 7 [cA] ⟨[], [], []⟩).1.written.map CommitId.description) :=
  ⟨by decide, gerrit_upload_stamping_idempotent ptW 3 7 [cA] ⟨[], [], []⟩ (by decide)⟩

/-- Claim C4: a commit with exactly one `Change-Id` trailer is mapped to
itself in the rewrite mapping (no new commit is written, the description is
untouched), processing continues with an `ok` result, and a warning naming
the commit is recorded exactly when the trailer's value is not 41 characters
starting with `I`. -/
theorem gerrit_upload_existing_trailer_untouched (pt : String → List Trailer)
    (now : Int) (st : StampState) (c : CommitId) (trailer : Trailer)
    (hone : change_id_trailers pt c.description = [trailer]) :
    stampOne pt now st c = .ok
      { oldToNew := insertIdx st.oldToNew c c,
        warnings :=
          if trailer.value.length != 41 || !(rust_starts_with trailer.value 'I') then
            st.warnings ++ [c]
          else st.warnings,
        written := st.written } :=
  stampOne_tracked pt now st c trailer hone

/-- Closed instantiation of C4 at the fixture commit `cA` with the malformed
single-trailer parser `ptShort` (the warning branch fires). -/
theorem gerrit_upload_existing_trailer_untouched_witness :
    change_id_trailers ptShort cA.description = [⟨"Change-Id", "short"⟩] ∧
    stampOne ptShort 0 ⟨[], [], []⟩ cA = .ok
      { oldToNew := insertIdx [] cA cA,
        warnings :=
          if ("short" : String).length != 41 || !(rust_starts_with "short" 'I') then
            [] ++ [cA]
          else [],
        written := [] } :=
  ⟨by decide,
   gerrit_upload_existing_trailer_untouched ptShort 0 ⟨[], [], []⟩ cA
     ⟨"Change-Id", "short"⟩ (by decide)⟩

/-- Claim C6: remote resolution precedence, first match wins: an explicit
remote argument (user error naming it when unknown), else the configured
`gerrit.default-remote` (validated the same way), else the recorded default
push remote, else a remote literally named "gerrit", else a user error. -/
theorem gerrit_upload_remote_precedence (remotes : List String)
    (dflt cfg : Option String) (r c d : String) :
    (calculate_push_remote remotes dflt cfg (some r) =
      if remotes.contains r then .ok r
      else .error ("The remote '" ++ r ++ "' (specified via `--remote`) does not exist")) ∧
    (calculate_push_remote remotes dflt (some c) none =
      if remotes.contains c then .ok c
      else .error ("The remote '" ++ c ++ "' (configured via `gerrit.default-remote`) does not exist")) ∧
    (calculate_push_remote remotes (some d) none none = .ok d) ∧
    (calculate_push_remote remotes none none none =
      if remotes.contains "gerrit" then .ok "gerrit"
      else .error "No remote specified, and no 'gerrit' remote was found") :=
  ⟨rfl, rfl, rfl, rfl⟩

/-- Claim C2: for a two-commit chain where `B`'s parent list contains `A` and
neither has a `Change-Id` trailer, processing parent-before-child maps `A`
and then `B` to stamped commits; the stamped `B`'s parent list substitutes
`A`'s stamped id for `A` (parents outside the rewritten chain are kept), so
it contains the stamped id and no longer contains `A`'s original id. -/
theorem gerrit_upload_parent_remap (pt : String → List Trailer) (now : Int)
    (A B : CommitId)
    (hA : change_id_trailers pt A.description = [])
    (hB : change_id_trailers pt B.description = [])
    (hpar : A ∈ B.parents) :
    stampChain pt now [A, B] ⟨[], [], []⟩ =
      ({ oldToNew := [(A, new_commit pt now [] A),
                      (B, new_commit pt now [(A, new_commit pt now [] A)] B)],
         warnings := [],
         written := [new_commit pt now [] A,
                     new_commit pt now [(A, new_commit pt now [] A)] B] }, none) ∧
    (new_commit pt now [(A, new_commit pt now [] A)] B).parents =
      B.parents.map (fun p => if p = A then new_commit pt now [] A else p) ∧
    new_commit pt now [] A ∈ (new_commit pt now [(A, new_commit pt now [] A)] B).parents ∧
    A ∉ (new_commit pt now [(A, new_commit pt now [] A)] B).parents := by
  have hAB : B ≠ A := (mem_parents_ne A B hpar).symm
  set A' := new_commit pt now [] A with hA'
  set B' := new_commit pt now [(A, A')] B with hB'
  have hmap : B'.parents = B.parents.map (fun p => if p = A then A' else p) := by
    rw [hB', new_commit_parents_eq]
    unfold new_parents
    apply List.map_congr_left
    intro p hp
    rw [lookupId_singleton]
    by_cases hAp : A = p
    · subst hAp
      simp
    · rw [if_neg hAp, if_neg (fun h => hAp h.symm)]
      rfl
  have hBA : B ∉ ([(A, A')].map Prod.fst) := by simp [hAB]
  have h1 := stampOne_fresh pt now ⟨[], [], []⟩ A hA
  have h2 := stampOne_fresh pt now ⟨[(A, A')], [], [A']⟩ B hB
  refine ⟨?_, hmap, ?_, ?_⟩
  · simp only [stampChain, h1, insertIdx_nil, List.nil_append, h2,
      insertIdx_not_mem [(A, A')] B B' hBA]
    rfl
  · rw [hmap]
    exact List.mem_map.mpr ⟨A, hpar, by simp⟩
  · rw [hmap]
    intro hmem
    rcases List.mem_map.mp hmem with ⟨p, hp, hpe⟩
    by_cases hpA : p = A
    · rw [if_pos hpA] at hpe
      exact new_commit_ne pt now [] A hpe
    · rw [if_neg hpA] at hpe
      exact hpA hpe

/-- Closed instantiation of C2 at the fixture chain `cA → cB`. -/
theorem gerrit_upload_parent_remap_witness :
    change_id_trailers ptW cA.description = [] ∧
    change_id_trailers ptW cB.description = [] ∧
    cA ∈ cB.parents ∧
    (stampChain ptW 0 [cA, cB] ⟨[], [], []⟩ =
      ({ oldToNew := [(cA, new_commit ptW 0 [] cA),
                      (cB, new_commit ptW 0 [(cA, new_commit ptW 0 [] cA)] cB)],
         warnings := [],
         written := [new_commit ptW 0 [] cA,
                     new_commit ptW 0 [(cA, new_commit ptW 0 [] cA)] cB] }, none) ∧
     (new_commit ptW 0 [(cA, new_commit ptW 0 [] cA)] cB).parents =
       cB.parents.map (fun p => if p = cA then new_commit ptW 0 [] cA else p) ∧
     new_commit ptW 0 [] cA ∈ (new_commit ptW 0 [(cA, new_commit ptW 0 [] cA)] cB).parents ∧
     cA ∉ (new_commit ptW 0 [(cA, new_commit ptW 0 [] cA)] cB).parents) :=
  ⟨by decide, by decide, by decide,
   gerrit_upload_parent_remap ptW 0 cA cB (by decide) (by decide) (by decide)⟩

/-- Claim C5: when some commit of the chain has two or more `Change-Id`
trailers (and the run reaches the stamping loop), the whole operation fails
with a user error naming an offending commit; no push request is issued and
the transaction is never committed, so no rewrite becomes durable. -/
theorem gerrit_upload_multiple_trailers_abort
    (env : Env) (args : UploadArgs) (revisions to_upload old_heads : List CommitId)
    (hne : revisions.isEmpty = false)
    (hroot : revisions.contains env.root_commit_id = false)
    (himm : revisions.any env.immutable = false)
    (R B : String)
    (hrem : calculate_push_remote env.remotes env.default_push_remote
      env.gerrit_default_remote args.remote = .ok R)
    (hbr : calculate_push_ref env.gerrit_default_remote_branch args.remote_branch = .ok B)
    (hdisc : to_upload.find? is_discardable = none)
    (c : CommitId) (hc : c ∈ to_upload)
    (hmulti : 1 < (change_id_trailers env.pt c.description).length) :
    ∃ c', c' ∈ to_upload ∧ 1 < (change_id_trailers env.pt c'.description).length ∧
      (cmd_upload env args revisions to_upload old_heads).result =
        .error (.multiple_change_ids c') ∧
      (cmd_upload env args revisions to_upload old_heads).pushes = [] ∧
      (cmd_upload env args revisions to_upload old_heads).tx_committed = false := by
  have hroot2 : env.root_commit_id ∉ revisions := by simpa using hroot
  obtain ⟨c', hc', hm', herr⟩ := stampChain_multi_err env.pt env.now to_upload.reverse
    ⟨[], [], []⟩ c (List.mem_reverse.mpr hc) hmulti
  refine ⟨c', List.mem_reverse.mp hc', hm', ?_, ?_, ?_⟩ <;>
    simp [cmd_upload, hne, hroot2, himm, hrem, hbr, hdisc, herr]

/-- Closed instantiation of C5 at the fixture commit `cBad`, which carries
two `Change-Id` trailers under `ptBad`. -/
theorem gerrit_upload_multiple_trailers_abort_witness :
    cBad ∈ [cBad] ∧ 1 < (change_id_trailers envBad.pt cBad.description).length ∧
    (∃ c', c' ∈ [cBad] ∧ 1 < (change_id_trailers envBad.pt c'.description).length ∧
      (cmd_upload envBad argsW [cBad] [cBad] [cBad]).result =
        .error (.multiple_change_ids c') ∧
      (cmd_upload envBad argsW [cBad] [cBad] [cBad]).pushes = [] ∧
      (cmd_upload envBad argsW [cBad] [cBad] [cBad]).tx_committed = false) :=
  ⟨by decide, by decide,
   gerrit_upload_multiple_trailers_abort envBad argsW [cBad] [cBad] [cBad]
     (by decide) (by decide) (by decide) "origin" "main" (by decide) (by decide)
     (by decide) cBad (by decide) (by decide)⟩

/-- Claim C7: in non-dry-run mode (with the run reaching the push loop and
every head present in the rewrite mapping), exactly one ref-update request
is issued per head of the original selection, in order, targeting
`refs/for/<target-branch>` with no expected current target and the new
target equal to the head's rewritten counterpart from the mapping. -/
theorem gerrit_upload_pushes_each_head
    (env : Env) (args : UploadArgs) (revisions to_upload old_heads : List CommitId)
    (hdry : args.dry_run = false)
    (hne : revisions.isEmpty = false)
    (hroot : revisions.contains env.root_commit_id = false)
    (himm : revisions.any env.immutable = false)
    (R B : String)
    (hrem : calculate_push_remote env.remotes env.default_push_remote
      env.gerrit_default_remote args.remote = .ok R)
    (hbr : calculate_push_ref env.gerrit_default_remote_branch args.remote_branch = .ok B)
    (hdisc : to_upload.find? is_discardable = none)
    (st : StampState)
    (hst : stampChain env.pt env.now to_upload.reverse ⟨[], [], []⟩ = (st, none))
    (hheads : ∀ h ∈ old_heads, (lookupId st.oldToNew h).isSome = true) :
    (cmd_upload env args revisions to_upload old_heads).pushes =
      old_heads.map (fun h =>
        { remote := R, qualified_name := "refs/for/" ++ B,
          expected_current_target := none, new_target := lookupId st.oldToNew h }) ∧
    (cmd_upload env args revisions to_upload old_heads).result = .ok () := by
  have hroot2 : env.root_commit_id ∉ revisions := by simpa using hroot
  have hpush := pushPhase_found R ("refs/for/" ++ B) st.oldToNew old_heads hheads
  constructor <;>
    simp [cmd_upload, hne, hroot2, himm, hrem, hbr, hdisc, hst, hdry, hpush]

/-- Closed instantiation of C7 at the single-head fixture selection. -/
theorem gerrit_upload_pushes_each_head_witness :
    stampChain envW.pt envW.now [cA].reverse ⟨[], [], []⟩ = (stA, none) ∧
    (∀ h ∈ [cA], (lookupId stA.oldToNew h).isSome = true) ∧
    ((cmd_upload envW argsW [cA] [cA] [cA]).pushes =
      [cA].map (fun h =>
        { remote := "origin", qualified_name := "refs/for/" ++ "main",
          expected_current_target := none, new_target := lookupId stA.oldToNew h }) ∧
     (cmd_upload envW argsW [cA] [cA] [cA]).result = .ok ()) :=
  ⟨by decide, by decide,
   gerrit_upload_pushes_each_head envW argsW [cA] [cA] [cA] (by decide) (by decide)
     (by decide) (by decide) "origin" "main" (by decide) (by decide) (by decide)
     stA (by decide) (by decide)⟩

/-- Claim C8: in dry-run mode (with the run reaching the push loop), one
progress line is printed per head of the selection — so exactly N lines for
N heads — no push request is issued, and the transaction is never committed,
leaving the durable local state unchanged. -/
theorem gerrit_upload_dry_run_frame
    (env : Env) (args : UploadArgs) (revisions to_upload old_heads : List CommitId)
    (hdry : args.dry_run = true)
    (hne : revisions.isEmpty = false)
    (hroot : revisions.contains env.root_commit_id = false)
    (himm : revisions.any env.immutable = false)
    (R B : String)
    (hrem : calculate_push_remote env.remotes env.default_push_remote
      env.gerrit_default_remote args.remote = .ok R)
    (hbr : calculate_push_ref env.gerrit_default_remote_branch args.remote_branch = .ok B)
    (hdisc : to_upload.find? is_discardable = none)
    (st : StampState)
    (hst : stampChain env.pt env.now to_upload.reverse ⟨[], [], []⟩ = (st, none)) :
    (cmd_upload env args revisions to_upload old_heads).progress = old_heads ∧
    (cmd_upload env args revisions to_upload old_heads).progress.length =
      old_heads.length ∧
    (cmd_upload env args revisions to_upload old_heads).pushes = [] ∧
    (cmd_upload env args revisions to_upload old_heads).tx_committed = false := by
  have hroot2 : env.root_commit_id ∉ revisions := by simpa using hroot
  refine ⟨?_, ?_, ?_, ?_⟩ <;>
    simp [cmd_upload, hne, hroot2, himm, hrem, hbr, hdisc, hst, hdry, pushPhase_dry]

/-- Closed instantiation of C8 at the single-head fixture selection. -/
theorem gerrit_upload_dry_run_frame_witness :
    argsDry.dry_run = true ∧
    stampChain envW.pt envW.now [cA].reverse ⟨[], [], []⟩ = (stA, none) ∧
    ((cmd_upload envW argsDry [cA] [cA] [cA]).progress = [cA] ∧
     (cmd_upload envW argsDry [cA] [cA] [cA]).progress.length = ([cA] : List CommitId).length ∧
     (cmd_upload envW argsDry [cA] [cA] [cA]).pushes = [] ∧
     (cmd_upload envW argsDry [cA] [cA] [cA]).tx_committed = false) :=
  ⟨by decide, by decide,
   gerrit_upload_dry_run_frame envW argsDry [cA] [cA] [cA] (by decide) (by decide)
     (by decide) (by decide) "origin" "main" (by decide) (by decide) (by decide)
     stA (by decide)⟩

/-- Claim C9: after the stamping loop processes the whole (duplicate-free)
chain, every commit of the chain appears exactly once as a key of the
rewrite mapping, each mapped to itself or to a commit written during the
loop; hence looking any head of the selection up in the mapping during the
push phase succeeds (the `unwrap` cannot panic). -/
theorem gerrit_upload_mapping_complete (pt : String → List Trailer) (now : Int)
    (to_upload old_heads : List CommitId) (st : StampState)
    (hnd : to_upload.Nodup)
    (hst : stampChain pt now to_upload.reverse ⟨[], [], []⟩ = (st, none))
    (hheads : ∀ h ∈ old_heads, h ∈ to_upload) :
    st.oldToNew.map Prod.fst = to_upload.reverse ∧
    (∀ c ∈ to_upload, (st.oldToNew.map Prod.fst).count c = 1) ∧
    (∀ p ∈ st.oldToNew, p.2 = p.1 ∨ p.2 ∈ st.written) ∧
    (∀ h ∈ old_heads, (lookupId st.oldToNew h).isSome = true) := by
  have hkeys := stampChain_keys pt now to_upload.reverse ⟨[], [], []⟩ st
    (List.nodup_reverse.mpr hnd) (by simp) hst
  simp only [List.map_nil, List.nil_append] at hkeys
  refine ⟨hkeys, ?_, ?_, ?_⟩
  · intro c hc
    rw [hkeys, List.count_reverse]
    exact List.count_eq_one_of_mem hnd hc
  · have hv := stampChain_values pt now to_upload.reverse ⟨[], [], []⟩ (by simp)
    rw [hst] at hv
    exact hv
  · intro h hh
    rw [lookupId_isSome_iff, hkeys, List.mem_reverse]
    exact hheads h hh

/-- Closed instantiation of C9 at the single-commit fixture chain. -/
theorem gerrit_upload_mapping_complete_witness :
    ([cA] : List CommitId).Nodup ∧
    stampChain ptW 0 [cA].reverse ⟨[], [], []⟩ = (stA, none) ∧
    (stA.oldToNew.map Prod.fst = [cA].reverse ∧
     (∀ c ∈ [cA], (stA.oldToNew.map Prod.fst).count c = 1) ∧
     (∀ p ∈ stA.oldToNew, p.2 = p.1 ∨ p.2 ∈ stA.written) ∧
     (∀ h ∈ [cA], (lookupId stA.oldToNew h).isSome = true)) :=
  ⟨by decide, by decide,
   gerrit_upload_mapping_complete ptW 0 [cA] [cA] stA (by decide) (by decide)
     (by decide)⟩

/-- Claim C10: the transaction holding the rewritten commits is never
finalized in any mode: the outcome's transaction-committed flag is false on
every path, and the set of commits written into the transaction scope is the
same under dry-run and normal mode (the stamping loop runs and writes even
under dry-run); the durable local commit graph is therefore unchanged. -/
theorem gerrit_upload_transaction_transient (env : Env) (args : UploadArgs)
    (revisions to_upload old_heads : List CommitId) :
    (cmd_upload env args revisions to_upload old_heads).tx_committed = false ∧
    (cmd_upload env { args with dry_run := true } revisions to_upload old_heads).written =
      (cmd_upload env { args with dry_run := false } revisions to_upload old_heads).written := by
  constructor
  · simp only [cmd_upload]
    repeat' split
    all_goals rfl
  · simp only [cmd_upload]
    repeat' split
    all_goals rfl
